import Mathlib

/-
Verification of the control-identifier reconciliation and search core of the
fedramp-streamlit-app repository.  The definitions below are shallow embeddings
of the Python functions in src/pages/3_Control_Search.py and
src/pages/4_Control_Crosswalk.py; strings are modelled as List Char and
machine-level string operations (split, zfill, strip, re.sub, re.findall,
str.upper / str.lower) are translated function by function.  The fuzzywuzzy
library (an external dependency, not repository code) enters only through an
abstract scorer parameter together with a model of the documented interface of
process.extract.
-/

/- ------------------------------------------------------------------ -/
/- Basic character and string helpers                                  -/
/- ------------------------------------------------------------------ -/

/-- Python str.split(sep) for a single-character separator:
"a-b-".split('-') == ["a", "b", ""]. -/
def splitOnChar (sep : Char) : List Char → List (List Char)
  | [] => [[]]
  | c :: rest =>
    if c = sep then [] :: splitOnChar sep rest
    else
      match splitOnChar sep rest with
      | [] => [[c]]
      | s :: ss => (c :: s) :: ss

/-- Python str.zfill(2): pad on the left with '0' to width 2.  (The sign
handling of zfill is irrelevant here: every call site passes digit strings.) -/
def zfill2 (l : List Char) : List Char :=
  if l.length < 2 then List.replicate (2 - l.length) '0' ++ l else l

/-- The whitespace class of Python str.strip() and of the regex \s,
restricted to ASCII (all inputs in this code base are ASCII). -/
def isPySpace (c : Char) : Bool :=
  c = ' ' || c = '\t' || c = '\n' || c = '\r' || c = '\x0b' || c = '\x0c'

/-- Python str.strip(): remove leading and trailing whitespace. -/
def pyStrip (l : List Char) : List Char :=
  ((l.dropWhile isPySpace).reverse.dropWhile isPySpace).reverse

/-- Python substring membership: needle in hay. -/
def containsSub (hay needle : List Char) : Bool :=
  match hay with
  | [] => needle.isEmpty
  | _ :: t => needle.isPrefixOf hay || containsSub t needle

/-- Python string comparison (lexicographic by code point), as used by
sorted() and by the tuple sort key in search_controls. -/
def listLe : List Char → List Char → Bool
  | [], _ => true
  | _ :: _, [] => false
  | a :: as, b :: bs => if a = b then listLe as bs else decide (a < b)

/-- Python str.upper() restricted to ASCII input. -/
def upperList (l : List Char) : List Char := l.map Char.toUpper

/-- Python str.lower() restricted to ASCII input. -/
def lowerList (l : List Char) : List Char := l.map Char.toLower

/-- Python str.replace(pat, rep) for a non-empty pattern: scan left to right,
non-overlapping; on a match emit rep and continue after the matched text.
The Nat argument counts pattern characters still to be skipped. -/
def replaceAllGo (pat rep : List Char) : Nat → List Char → List Char
  | _, [] => []
  | Nat.succ s, _ :: rest => replaceAllGo pat rep s rest
  | 0, c :: rest =>
    if pat.isPrefixOf (c :: rest) then rep ++ replaceAllGo pat rep (pat.length - 1) rest
    else c :: replaceAllGo pat rep 0 rest

/-- Python s.replace(pat, rep) (pat non-empty at every call site). -/
def pyReplace (l pat rep : List Char) : List Char := replaceAllGo pat rep 0 l

/- ------------------------------------------------------------------ -/
/- The baseline-cell cleanup of 4_Control_Crosswalk.py (lines 128-131) -/
/- ------------------------------------------------------------------ -/

/-- re.sub(r'\s*\(\s*', '(', s): drop whitespace runs that are immediately
followed by '(' and whitespace immediately after '('.  The Bool state is
true while consuming whitespace after an opening parenthesis; the list
argument accumulates (reversed) a pending whitespace run whose fate depends
on the next non-space character. -/
def subOpenGo (afterOpen : Bool) (sp : List Char) : List Char → List Char
  | [] => if afterOpen then [] else sp.reverse
  | c :: rest =>
    if afterOpen then
      if isPySpace c then subOpenGo true [] rest
      else if c = '(' then '(' :: subOpenGo true [] rest
      else c :: subOpenGo false [] rest
    else
      if isPySpace c then subOpenGo false (c :: sp) rest
      else if c = '(' then '(' :: subOpenGo true [] rest
      else sp.reverse ++ c :: subOpenGo false [] rest

/-- re.sub(r'\s*\)', ')', s): drop whitespace runs immediately followed
by ')'. -/
def subCloseGo (sp : List Char) : List Char → List Char
  | [] => sp.reverse
  | c :: rest =>
    if isPySpace c then subCloseGo (c :: sp) rest
    else if c = ')' then ')' :: subCloseGo [] rest
    else sp.reverse ++ c :: subCloseGo [] rest

/-- The baseline-side identifier cleanup of 4_Control_Crosswalk.py lines
128-131: str(value).strip(), then collapse spaces around parentheses.  This
is the only normalization applied to the spreadsheet SORT ID cells. -/
def cleanBaselineId (s : List Char) : List Char :=
  subCloseGo [] (subOpenGo false [] (pyStrip s))

/- ------------------------------------------------------------------ -/
/- The KSI-side normalization (4_Control_Crosswalk.py lines 52-67 and,  -/
/- duplicated verbatim, 3_Control_Search.py lines 58-69)               -/
/- ------------------------------------------------------------------ -/

/-- The output string f"{family}-{num}({enhancement})" of the dot-form
branch, with num already zero-filled. -/
def parenForm (family num enh : List Char) : List Char :=
  family ++ '-' :: (num ++ '(' :: (enh ++ [')']))

/-- The body of the per-token normalization after upper-casing and after
parts = control.split('-'): when there are exactly two parts the number part
is zero-padded and a dot enhancement is rewritten to parentheses; with any
other number of parts the (upper-cased) token is kept unchanged.  The Python
statement num, enhancement = num_part.split('.') raises ValueError when the
split does not have exactly two pieces; that failure is modelled as none
(it is unreachable for tokens produced by the extraction regex). -/
def normalizeCore (parts : List (List Char)) (c : List Char) : Option (List Char) :=
  match parts with
  | [family, numPart] =>
    if '.' ∈ numPart then
      match splitOnChar '.' numPart with
      | [num, enh] => some (parenForm family (zfill2 num) enh)
      | _ => none
    else some (family ++ '-' :: zfill2 numPart)
  | _ => some c

/-- Normalization of one raw KSI control token: upper-case, split on '-',
zero-pad the base number, rewrite a dot enhancement to parentheses
(src/pages/4_Control_Crosswalk.py lines 52-67). -/
def normalizeTok (tok : List Char) : Option (List Char) :=
  let c := tok.map Char.toUpper
  normalizeCore (splitOnChar '-' c) c

/-- The language of the control-extraction regex
\b([a-z]{2}-\d{1,2}(?:\.\d+)?)\b restricted to the captured token itself:
an optional enhancement is a dot followed by one or more digits. -/
def isEnhPart : List Char → Bool
  | [] => true
  | p :: es => decide (p = '.') && !es.isEmpty && es.all Char.isDigit

/-- Continuation of isValidNumPart after the first digit when the token has
a second leading digit. -/
def isSecondDigitPart : List Char → Bool
  | [] => false
  | e :: rest => e.isDigit && isEnhPart rest

/-- \d{1,2}(?:\.\d+)? as a whole-string predicate. -/
def isValidNumPart : List Char → Bool
  | [] => false
  | d :: rest => d.isDigit && (isEnhPart rest || isSecondDigitPart rest)

/-- [a-z]{2}-\d{1,2}(?:\.\d+)? as a whole-string predicate: the shape of
every token the extraction regex can capture. -/
def isValidRawTok : List Char → Bool
  | a :: b :: h :: rest => a.isLower && b.isLower && decide (h = '-') && isValidNumPart rest
  | _ => false

/- ------------------------------------------------------------------ -/
/- The extraction regexes (re.findall), 4_Control_Crosswalk.py 47, 71  -/
/- ------------------------------------------------------------------ -/

/-- The \w word-character class (ASCII) used by the \b boundary. -/
def isWordChar (c : Char) : Bool := c.isAlpha || c.isDigit || c = '_'

/-- Word-boundary test at the position after a candidate match: true at end
of input or before a non-word character. -/
def boundaryOk : List Char → Bool
  | [] => true
  | c :: _ => !isWordChar c

/-- The optional enhancement (?:\.\d+)? followed by the trailing \b, tried
greedily (with the dot part first).  \d+ is taken as the maximal digit run:
giving digits back would leave a digit (a word character) immediately after
the match, so the trailing \b would fail for every shorter run as well. -/
def tryEnh (acc rest : List Char) : Option (List Char × List Char) :=
  (match rest with
    | '.' :: t =>
      let ds := t.takeWhile Char.isDigit
      if ds ≠ [] ∧ boundaryOk (t.drop ds.length) = true then
        some (acc ++ '.' :: ds, t.drop ds.length)
      else none
    | _ => none) <|>
  (if boundaryOk rest = true then some (acc, rest) else none)

/-- Matching [a-z]{2}-\d{1,2}(?:\.\d+)?\b at the head of the input, with the
greedy preference order of the regex engine (two digits before one). -/
def matchControlAt (l : List Char) : Option (List Char × List Char) :=
  match l with
  | a :: b :: '-' :: rest =>
    if a.isLower && b.isLower then
      match rest with
      | d1 :: rest1 =>
        if d1.isDigit then
          (match rest1 with
            | d2 :: rest2 =>
              if d2.isDigit then tryEnh [a, b, '-', d1, d2] rest2 else none
            | [] => none) <|> tryEnh [a, b, '-', d1] rest1
        else none
      | [] => none
    else none
  | _ => none

/-- re.findall scan for the control pattern: try the pattern wherever the
leading \b holds (tracked through the previous-character word flag), emit
non-overlapping matches left to right, and continue after each match (the
Nat argument counts characters of an emitted match still to be consumed). -/
def findControlsAux : Nat → Bool → List Char → List (List Char)
  | _, _, [] => []
  | Nat.succ s, _, c :: rest => findControlsAux s (isWordChar c) rest
  | 0, prevW, c :: rest =>
    if !prevW then
      match matchControlAt (c :: rest) with
      | some (tok, _) => tok :: findControlsAux (tok.length - 1) (isWordChar c) rest
      | none => findControlsAux 0 (isWordChar c) rest
    else findControlsAux 0 (isWordChar c) rest

/-- re.findall(r'\b([a-z]{2}-\d{1,2}(?:\.\d+)?)\b', content)
(src/pages/4_Control_Crosswalk.py line 47, 3_Control_Search.py line 54). -/
def findControls (text : List Char) : List (List Char) := findControlsAux 0 false text

/-- Matching KSI-[A-Z]+-\d+ at the head of the input.  [A-Z]+ and \d+ are
maximal runs: the character after a shortened letter run would be an
uppercase letter, not the required '-', so no backtracking can succeed. -/
def matchKsiAt (l : List Char) : Option (List Char × List Char) :=
  match l with
  | 'K' :: 'S' :: 'I' :: '-' :: rest =>
    let us := rest.takeWhile Char.isUpper
    if us ≠ [] then
      match rest.drop us.length with
      | '-' :: t =>
        let ds := t.takeWhile Char.isDigit
        if ds ≠ [] then
          some ( 'K' :: 'S' :: 'I' :: '-' :: (us ++ '-' :: ds), t.drop ds.length)
        else none
      | _ => none
    else none
  | _ => none

/-- re.findall scan for the indicator pattern (no boundary assertions). -/
def findKsisAux : Nat → List Char → List (List Char)
  | _, [] => []
  | Nat.succ s, _ :: rest => findKsisAux s rest
  | 0, c :: rest =>
    match matchKsiAt (c :: rest) with
    | some (tok, _) => tok :: findKsisAux (tok.length - 1) rest
    | none => findKsisAux 0 rest

/-- re.findall(r'KSI-[A-Z]+-\d+', content)
(src/pages/4_Control_Crosswalk.py line 71). -/
def findKsis (text : List Char) : List (List Char) := findKsisAux 0 text

/-- Python ascending sort of a list of strings (sorted), stable. -/
def strLeProp (x y : List Char) : Prop := listLe x y = true

instance : DecidableRel strLeProp :=
  fun x y => inferInstanceAs (Decidable (listLe x y = true))

/-- Python sorted(list-of-strings). -/
def sortStrs (l : List (List Char)) : List (List Char) := List.insertionSort strLeProp l

/-- extract_ksi_controls of 4_Control_Crosswalk.py (lines 40-74), without
its file I/O: the document content is the argument and the function returns
(sorted normalized control ids, sorted KSI tags).  list(set(...)) is
modelled by dedup; the iteration order of the Python set does not affect
the sorted outputs.  A ValueError inside the normalization loop would make
the Python except-branch return empty lists, hence the none case. -/
def extract_ksi_controls (content : List Char) : List (List Char) × List (List Char) :=
  match ((findControls content).dedup).mapM normalizeTok with
  | some ns => (sortStrs ns, sortStrs ((findKsis content).dedup))
  | none => ([], [])

/- ------------------------------------------------------------------ -/
/- parse_control_id and the family tally (4_Control_Crosswalk.py)      -/
/- ------------------------------------------------------------------ -/

/-- The optional group (?:\((\d+)\))? of parse_control_id: a parenthesized
maximal digit run followed by ')'. -/
def tryParenEnh (l : List Char) : Option (List Char) :=
  match l with
  | '(' :: t =>
    match t.takeWhile Char.isDigit, t.drop (t.takeWhile Char.isDigit).length with
    | d :: ds, ')' :: _ => some (d :: ds)
    | _, _ => none
  | _ => none

/-- parse_control_id (src/pages/4_Control_Crosswalk.py lines 79-86):
re.match(r'([A-Z]{2}-\d{1,2})(?:\((\d+)\))?', control); on failure the
control is returned unchanged with no enhancement.  re.match anchors only
at the start, so trailing text is ignored. -/
def parse_control_id (c : List Char) : List Char × Option (List Char) :=
  match c with
  | a :: b :: '-' :: d1 :: rest =>
    if a.isUpper && b.isUpper && d1.isDigit then
      match rest with
      | d2 :: rest2 =>
        if d2.isDigit then ([a, b, '-', d1, d2], tryParenEnh rest2)
        else ([a, b, '-', d1], tryParenEnh rest)
      | [] => ([a, b, '-', d1], none)
    else (c, none)
  | _ => (c, none)

/-- The per-family tally record of the tab4 analysis (keys 'ksi',
'baseline', 'both'). -/
structure FamCounts where
  ksi : Nat
  baseline : Nat
  both : Nat
deriving DecidableEq

/-- First-match association-list lookup: Python dict read access (keys are
unique in every dict the source builds, and insertion order is preserved,
which is why the catalog is kept as a list of pairs). -/
def lookupC {α : Type} : List (List Char × α) → List Char → Option α
  | [], _ => none
  | (k, v) :: t, i => if i = k then some v else lookupC t i

/-- In-place value update at a key: Python d[k] = f(d[k]) (the key is
present at every call site; absent keys are left untouched). -/
def updateC {α : Type} : List (List Char × α) → List Char → (α → α) → List (List Char × α)
  | [], _, _ => []
  | (k, v) :: t, key, f =>
    (if k = key then (k, f v) else (k, v)) :: updateC t key f

/-- base.split('-')[0]: splitOnChar never returns an empty list, so the
default of headD is unreachable. -/
def famKey (control : List Char) : List Char :=
  (splitOnChar '-' (parse_control_id control).1).headD []

/-- One iteration of the tab4 family loop (src/pages/4_Control_Crosswalk.py
lines 276-288): ensure the family record exists, then bump exactly one of
the three counters according to membership of the control in the two input
lists. -/
def famStep (ksiL baseL : List (List Char)) (fams : List (List Char × FamCounts))
    (control : List Char) : List (List Char × FamCounts) :=
  let fam := famKey control
  let fams1 := if (lookupC fams fam).isSome then fams else fams ++ [(fam, ⟨0, 0, 0⟩)]
  updateC fams1 fam (fun cnt =>
    if control ∈ ksiL ∧ control ∈ baseL then { cnt with both := cnt.both + 1 }
    else if control ∈ ksiL then { cnt with ksi := cnt.ksi + 1 }
    else { cnt with baseline := cnt.baseline + 1 })

/-- The tab4 family analysis (src/pages/4_Control_Crosswalk.py lines
274-288): for control in ksi_controls + baseline_controls — note that the
loop runs over the concatenation of the two lists, not their union. -/
def familiesAnalysis (ksiL baseL : List (List Char)) : List (List Char × FamCounts) :=
  (ksiL ++ baseL).foldl (famStep ksiL baseL) []

/- ------------------------------------------------------------------ -/
/- The catalog builder (3_Control_Search.py, load_all_controls)        -/
/- ------------------------------------------------------------------ -/

/-- One catalog entry: the value dict created at 3_Control_Search.py lines
35-43.  The Python dict additionally stores the id under the key 'id'; the
baselines value is a list in append order. -/
structure CatalogEntry where
  id : List Char
  name : List Char
  family : List Char
  description : List Char
  baselines : List (List Char)
  fedramp_params : Bool
  in_ksi : Bool
deriving DecidableEq

/-- One spreadsheet row together with the name of the sheet it came from.
Cells are modelled already stringified (the source applies str() to the
SORT ID and description cells); a missing column surfaces as the empty
string via row.get(..., '').  param is the raw FedRAMP-Parameter cell. -/
structure SRow where
  sheet : List Char
  sortId : List Char
  name : List Char
  family : List Char
  description : List Char
  param : List Char
deriving DecidableEq

/-- 'baseline' in sheet_name.lower() (3_Control_Search.py line 30). -/
def isBaselineSheet (sheet : List Char) : Bool :=
  containsSub (lowerList sheet) ( "baseline".toList)

/-- The entry freshly created for a control id（3_Control_Search.py lines
35-43): description truncated to 500 characters, parameter flag from
comparison with 'X', baselines filled by the caller. -/
def mkEntry (cid : List Char) (r : SRow) : CatalogEntry :=
  { id := cid, name := r.name, family := r.family,
    description := r.description.take 500, baselines := [],
    fedramp_params := decide (r.param = "X".toList), in_ksi := false }

/-- Processing of one row of one baseline sheet (3_Control_Search.py lines
29-44): skip sheets whose name does not contain 'baseline', strip the SORT
ID cell and skip empty ids, create the entry on first sight only (all
scalar fields are frozen by the first row seen for an id), and append the
sheet name minus ' Baseline' to the entry's baselines list. -/
def rowStep (cat : List (List Char × CatalogEntry)) (r : SRow) :
    List (List Char × CatalogEntry) :=
  if isBaselineSheet r.sheet = true then
    let cid := pyStrip r.sortId
    if cid = [] then cat
    else
      let cat1 := if (lookupC cat cid).isSome then cat else cat ++ [(cid, mkEntry cid r)]
      updateC cat1 cid (fun e =>
        { e with baselines := e.baselines ++ [pyReplace r.sheet ( " Baseline".toList) []] })
  else cat

/-- The tabular half of load_all_controls: fold over all rows of all sheets
in their iteration order. -/
def buildFromRows (rows : List SRow) : List (List Char × CatalogEntry) :=
  rows.foldl rowStep []

/-- The catalog key contributed by a row, when any: a row of a baseline
sheet with a non-empty stripped SORT ID contributes that id. -/
def validRowId (r : SRow) : Option (List Char) :=
  if isBaselineSheet r.sheet = true ∧ pyStrip r.sortId ≠ [] then some (pyStrip r.sortId)
  else none

/-- Processing of one extracted KSI token (3_Control_Search.py lines 57-72):
normalize it and, only if the normalized id is already a catalog key, set
that entry's in_ksi flag.  No entry is ever created here.  The none case of
normalizeTok is unreachable for regex-extracted tokens (the Python code
would raise there). -/
def ksiStep (cat : List (List Char × CatalogEntry)) (t : List Char) :
    List (List Char × CatalogEntry) :=
  match normalizeTok t with
  | some n =>
    if (lookupC cat n).isSome then updateC cat n (fun e => { e with in_ksi := true })
    else cat
  | none => cat

/-- The KSI half of load_all_controls: fold the flag-setting step over the
extracted tokens.  Setting a flag is idempotent and key-preserving, so the
unspecified iteration order of the Python set does not matter. -/
def applyKsi (cat : List (List Char × CatalogEntry)) (toks : List (List Char)) :
    List (List Char × CatalogEntry) :=
  toks.foldl ksiStep cat

/-- load_all_controls (src/pages/3_Control_Search.py lines 21-76) without
its file I/O: rows of the baseline sheets and the raw KSI document text are
the arguments. -/
def load_all_controls (rows : List SRow) (ksiText : List Char) :
    List (List Char × CatalogEntry) :=
  applyKsi (buildFromRows rows) ((findControls ksiText).dedup)

/- ------------------------------------------------------------------ -/
/- Search and ranking (3_Control_Search.py)                            -/
/- ------------------------------------------------------------------ -/

/-- str(control_data[field]).lower() source value for the fields the UI can
request.  The source dict also holds the keys 'baselines', 'fedramp_params'
and 'in_ksi' (non-string values), but the search page only ever passes
subsets of {id, name, description}, so those keys are modelled as absent. -/
def getFieldVal (e : CatalogEntry) (f : String) : Option (List Char) :=
  if f = "id" then some e.id
  else if f = "name" then some e.name
  else if f = "family" then some e.family
  else if f = "description" then some e.description
  else none

/-- The inner field loop of search_controls (3_Control_Search.py lines
111-128), carried over the remaining fields with the running score and
matched flag.  An id-prefix hit returns immediately (break) with score 100;
a fuzzy hit keeps the maximum similarity; an exact substring hit overwrites
the score with 90 for name and 80 otherwise. -/
def fieldLoop (ql cid : List Char) (e : CatalogEntry) (fz : Bool)
    (pr : List Char → List Char → Nat) :
    List String → Nat → Bool → Nat × Bool
  | [], score, matched => (score, matched)
  | f :: fs, score, matched =>
    if f = "id" ∧ ql.isPrefixOf (lowerList cid) = true then (100, true)
    else
      match getFieldVal e f with
      | some fv =>
        let v := lowerList fv
        if fz then
          let ms := pr ql v
          if ms > 70 then fieldLoop ql cid e fz pr fs (max score ms) true
          else fieldLoop ql cid e fz pr fs score matched
        else
          if containsSub v ql = true then
            fieldLoop ql cid e fz pr fs (if f = "name" then 90 else 80) true
          else fieldLoop ql cid e fz pr fs score matched
      | none => fieldLoop ql cid e fz pr fs score matched

/-- A search result triple (control id, entry, score). -/
abbrev SearchRes := List Char × CatalogEntry × Nat

/-- The sort order of search_controls line 134:
sorted(results, key=lambda x: (-x[2], x[0])) — descending score, ties by
ascending id. -/
def resRel (x y : SearchRes) : Prop :=
  y.2.2 < x.2.2 ∨ (x.2.2 = y.2.2 ∧ listLe x.1 y.1 = true)

instance : DecidableRel resRel :=
  fun x y => inferInstanceAs (Decidable (y.2.2 < x.2.2 ∨ (x.2.2 = y.2.2 ∧ listLe x.1 y.1 = true)))

/-- search_controls (src/pages/3_Control_Search.py lines 105-134).  The
fuzzy scorer fuzz.partial_ratio of the external fuzzywuzzy library is the
abstract parameter pr; the exact-mode paths never consult it.  The result
list is the matched entries in catalog order, sorted by (-score, id) with
a stable sort, as Python sorted does. -/
def search_controls (query : List Char) (controls : List (List Char × CatalogEntry))
    (fields : List String) (fz : Bool) (pr : List Char → List Char → Nat) :
    List SearchRes :=
  let ql := lowerList query
  let results := controls.foldl (fun acc p =>
    let sm := fieldLoop ql p.1 p.2 fz pr fields 0 false
    if sm.2 then acc ++ [(p.1, p.2, sm.1)] else acc) []
  List.insertionSort resRel results

/-- Descending-score order of the pair list returned by fuzzywuzzy
process.extract. -/
def scorePairRel (x y : List Char × Nat) : Prop := y.2 ≤ x.2

instance : DecidableRel scorePairRel :=
  fun x y => inferInstanceAs (Decidable (y.2 ≤ x.2))

/-- Modelled from the library interface: fuzzywuzzy process.extract(query,
choices, scorer, limit) — external dependency, not repository code — scores
every choice with the scorer and returns the limit best (choice, score)
pairs in descending score order (stable). -/
def processExtract (q : List Char) (choices : List (List Char))
    (scorer : List Char → List Char → Nat) (lim : Nat) : List (List Char × Nat) :=
  (List.insertionSort scorePairRel (choices.map (fun c => (c, scorer q c)))).take lim

/-- get_control_suggestions (src/pages/3_Control_Search.py lines 78-103):
empty query gives []; otherwise upper-case the query, collect the keys with
that prefix in catalog iteration order, then, if slots remain, append fuzzy
matches with score above 70 that are not already listed, and cap the whole
list at the limit. -/
def get_control_suggestions (query : List Char) (keys : List (List Char)) (lim : Nat)
    (scorer : List Char → List Char → Nat) : List (List Char) :=
  if query = [] then []
  else
    let q := upperList query
    let pre := keys.filter (fun k => q.isPrefixOf k)
    let sugg :=
      if pre.length < lim then
        (processExtract q keys scorer (lim - pre.length)).foldl
          (fun acc m => if m.2 > 70 ∧ m.1 ∉ acc then acc ++ [m.1] else acc) pre
      else pre
    sugg.take lim

/- ------------------------------------------------------------------ -/
/- Concrete sample data used by the closed theorems                    -/
/- ------------------------------------------------------------------ -/

/-- A scorer constant used where the fuzzy path is not taken. -/
def pr0 : List Char → List Char → Nat := fun _ _ => 0

/-- The crafted fixture text of the extraction claims. -/
def fixtureText : List Char := "AC-1 ac-2.3 KSI-IAM-05".toList

def entryAC01 : CatalogEntry :=
  { id := "AC-01".toList, name := "Access Control Policy".toList,
    family := "AC".toList, description := "Develops an access control policy".toList,
    baselines := [ "Low".toList], fedramp_params := false, in_ksi := false }

def entryAC02 : CatalogEntry :=
  { id := "AC-02".toList, name := "Account Management".toList,
    family := "AC".toList, description := "Manages system accounts".toList,
    baselines := [ "Low".toList], fedramp_params := false, in_ksi := false }

def entryAB05 : CatalogEntry :=
  { id := "AB-05".toList, name := "Placeholder".toList,
    family := "AB".toList, description := "Unrelated entry".toList,
    baselines := [], fedramp_params := false, in_ksi := false }

def entryAudit : CatalogEntry :=
  { id := "AU-06".toList, name := "Audit Logging".toList,
    family := "AU".toList, description := "Review and analyze audit log records".toList,
    baselines := [], fedramp_params := false, in_ksi := false }

/-- The example catalog {AC-01, AC-02, AB-05} in a deliberately scrambled
insertion order. -/
def catEx : List (List Char × CatalogEntry) :=
  [( "AC-02".toList, entryAC02), ( "AC-01".toList, entryAC01), ( "AB-05".toList, entryAB05)]

/-- A Low-Baseline row for AC-01 carrying name "Policy A". -/
def rowLowA : SRow :=
  { sheet := "Low Baseline".toList, sortId := "AC-01".toList,
    name := "Policy A".toList, family := "AC".toList,
    description := "first description".toList, param := [] }

/-- A Moderate-Baseline row for the same id carrying name "Policy B". -/
def rowModB : SRow :=
  { sheet := "Moderate Baseline".toList, sortId := "AC-01".toList,
    name := "Policy B".toList, family := "AC".toList,
    description := "second description".toList, param := [] }

/- ------------------------------------------------------------------ -/
/- Character-level facts                                               -/
/- ------------------------------------------------------------------ -/

theorem charToNat_ofNat {n : Nat} (h1 : n < 55296) : (Char.ofNat n).toNat = n := by
  have hv : n.isValidChar := Or.inl h1
  simp only [Char.ofNat, dif_pos hv, Char.ofNatAux, Char.toNat]
  simp [UInt32.toNat]

theorem char_ne_of_toNat_ne {c d : Char} (h : c.toNat ≠ d.toNat) : c ≠ d :=
  fun he => h (by rw [he])

theorem isDigit_toNat {c : Char} (h : c.isDigit = true) : 48 ≤ c.toNat ∧ c.toNat ≤ 57 := by
  simp only [Char.isDigit, Bool.and_eq_true, decide_eq_true_eq] at h
  obtain ⟨h1, h2⟩ := h
  exact ⟨by simpa [Char.toNat] using h1, by simpa [Char.toNat] using h2⟩

theorem isLower_toNat {c : Char} (h : c.isLower = true) : 97 ≤ c.toNat ∧ c.toNat ≤ 122 := by
  simp only [Char.isLower, Bool.and_eq_true, decide_eq_true_eq] at h
  obtain ⟨h1, h2⟩ := h
  exact ⟨by simpa [Char.toNat] using h1, by simpa [Char.toNat] using h2⟩

theorem isLower_of_toNat {c : Char} (h1 : 97 ≤ c.toNat) (h2 : c.toNat ≤ 122) :
    c.isLower = true := by
  simp only [Char.isLower, Bool.and_eq_true, decide_eq_true_eq]
  constructor
  · have h : (97 : UInt32).toNat ≤ c.val.toNat := by simpa [Char.toNat] using h1
    exact h
  · have h : c.val.toNat ≤ (122 : UInt32).toNat := by simpa [Char.toNat] using h2
    exact h

theorem isLower_eq_false_of_lt {c : Char} (h : c.toNat < 97) : c.isLower = false := by
  cases hb : c.isLower
  · rfl
  · exact absurd (isLower_toNat hb).1 (by omega)

theorem toUpper_of_not_lower {c : Char} (h : c.isLower = false) : c.toUpper = c := by
  simp only [Char.toUpper]
  rw [if_neg]
  intro hc
  rw [isLower_of_toNat hc.1 hc.2] at h
  exact Bool.true_eq_false.mp h

theorem toUpper_digit {c : Char} (h : c.isDigit = true) : c.toUpper = c :=
  toUpper_of_not_lower (isLower_eq_false_of_lt (by have := (isDigit_toNat h).2; omega))

theorem toUpper_toNat_of_lower {c : Char} (h : c.isLower = true) :
    (c.toUpper).toNat = c.toNat - 32 := by
  obtain ⟨ha, hb⟩ := isLower_toNat h
  simp only [Char.toUpper, if_pos (And.intro ha hb)]
  exact charToNat_ofNat (by omega)

theorem toUpper_toUpper (c : Char) : c.toUpper.toUpper = c.toUpper := by
  cases hl : c.isLower
  · rw [toUpper_of_not_lower hl, toUpper_of_not_lower hl]
  · have h1 := toUpper_toNat_of_lower hl
    have h2 := isLower_toNat hl
    exact toUpper_of_not_lower (isLower_eq_false_of_lt (by omega))

theorem toUpper_lower_ne {c d : Char} (hc : c.isLower = true) (hd : d.toNat < 65) :
    c.toUpper ≠ d := by
  apply char_ne_of_toNat_ne
  have h1 := toUpper_toNat_of_lower hc
  have h2 := isLower_toNat hc
  omega

theorem digit_ne {c d : Char} (hc : c.isDigit = true)
    (hd : d.toNat < 48 ∨ 57 < d.toNat) : c ≠ d := by
  apply char_ne_of_toNat_ne
  have := isDigit_toNat hc
  omega

theorem all_digits_toUpper {l : List Char} (h : l.all Char.isDigit = true) :
    l.map Char.toUpper = l := by
  induction l with
  | nil => rfl
  | cons c t ih =>
    simp only [List.all_cons, Bool.and_eq_true] at h
    simp [toUpper_digit h.1, ih h.2]

theorem not_mem_of_all_digits {l : List Char} (h : l.all Char.isDigit = true)
    {d : Char} (hd : d.isDigit = false) : d ∉ l := by
  intro hm
  have hx := List.all_eq_true.mp h d hm
  rw [hd] at hx
  exact Bool.false_ne_true hx

/- ------------------------------------------------------------------ -/
/- splitOnChar facts                                                   -/
/- ------------------------------------------------------------------ -/

theorem splitOnChar_no_sep {sep : Char} {l : List Char} (h : sep ∉ l) :
    splitOnChar sep l = [l] := by
  induction l with
  | nil => rfl
  | cons c t ih =>
    have hc : c ≠ sep := fun he => h (he ▸ List.mem_cons_self c t)
    have ht : sep ∉ t := fun hm => h (List.mem_cons_of_mem c hm)
    simp only [splitOnChar, if_neg hc, ih ht]

theorem splitOnChar_append {sep : Char} (xs ys : List Char) (h : sep ∉ xs) :
    splitOnChar sep (xs ++ sep :: ys) = xs :: splitOnChar sep ys := by
  induction xs with
  | nil => simp [splitOnChar]
  | cons c t ih =>
    have hc : c ≠ sep := fun he => h (he ▸ List.mem_cons_self c t)
    have ht : sep ∉ t := fun hm => h (List.mem_cons_of_mem c hm)
    simp only [List.cons_append, splitOnChar, if_neg hc, List.append_eq]
    rw [ih ht]

/- ------------------------------------------------------------------ -/
/- Fixed points and idempotence of the KSI normalization (claim C9)   -/
/- ------------------------------------------------------------------ -/

/-- Every string of the canonical shape F-N with no further hyphen, no dot,
a number part of length at least two, and all letters already upper-case is
a fixed point of the normalization. -/
theorem normalizeTok_fixed {F N : List Char} (hF : ('-') ∉ F) (hN : ('-') ∉ N)
    (hdot : ('.') ∉ N) (hlen : 2 ≤ N.length)
    (hFU : F.map Char.toUpper = F) (hNU : N.map Char.toUpper = N) :
    normalizeTok (F ++ '-' :: N) = some (F ++ '-' :: N) := by
  have hmap : (F ++ '-' :: N).map Char.toUpper = F ++ '-' :: N := by
    rw [List.map_append, hFU, List.map_cons, hNU,
      show ('-').toUpper = '-' from by decide]
  simp only [normalizeTok, hmap]
  rw [splitOnChar_append F N hF, splitOnChar_no_sep hN]
  simp only [normalizeCore]
  rw [if_neg hdot, zfill2, if_neg (by omega)]

theorem pair_facts {x y : Char} (hx : x.isDigit = true) (hy : y.isDigit = true) :
    ('-') ∉ [x, y] ∧ ('.') ∉ [x, y] ∧ ([x, y].map Char.toUpper = [x, y]) := by
  refine ⟨?_, ?_, ?_⟩
  · intro hm
    rcases List.mem_cons.mp hm with h | h
    · exact digit_ne hx (Or.inl (by decide)) h.symm
    · have h2 := List.mem_singleton.mp h
      exact digit_ne hy (Or.inl (by decide)) h2.symm
  · intro hm
    rcases List.mem_cons.mp hm with h | h
    · exact digit_ne hx (Or.inl (by decide)) h.symm
    · have h2 := List.mem_singleton.mp h
      exact digit_ne hy (Or.inl (by decide)) h2.symm
  · simp [toUpper_digit hx, toUpper_digit hy]

theorem enh_list_facts {x y : Char} {es : List Char} (hx : x.isDigit = true)
    (hy : y.isDigit = true) (hdig : es.all Char.isDigit = true) :
    ('-') ∉ (x :: y :: '(' :: (es ++ [')'])) ∧
    ('.') ∉ (x :: y :: '(' :: (es ++ [')'])) ∧
    ((x :: y :: '(' :: (es ++ [')'])).map Char.toUpper
      = x :: y :: '(' :: (es ++ [')'])) := by
  refine ⟨?_, ?_, ?_⟩
  · intro hm
    simp only [List.mem_cons, List.mem_append, List.mem_singleton] at hm
    rcases hm with h | h | h | h | h
    · exact digit_ne hx (Or.inl (by decide)) h.symm
    · exact digit_ne hy (Or.inl (by decide)) h.symm
    · exact absurd h (by decide)
    · exact not_mem_of_all_digits hdig (by decide) h
    · exact absurd h (by decide)
  · intro hm
    simp only [List.mem_cons, List.mem_append, List.mem_singleton] at hm
    rcases hm with h | h | h | h | h
    · exact digit_ne hx (Or.inl (by decide)) h.symm
    · exact digit_ne hy (Or.inl (by decide)) h.symm
    · exact absurd h (by decide)
    · exact not_mem_of_all_digits hdig (by decide) h
    · exact absurd h (by decide)
  · simp [toUpper_digit hx, toUpper_digit hy, all_digits_toUpper hdig,
      show ('(').toUpper = '(' from by decide, show (')').toUpper = ')' from by decide]

theorem family_not_hyphen {a b : Char} (ha : a.isLower = true) (hb : b.isLower = true) :
    ('-') ∉ [a.toUpper, b.toUpper] := by
  intro hm
  rcases List.mem_cons.mp hm with h | h
  · exact toUpper_lower_ne ha (by decide) h.symm
  · have h2 := List.mem_singleton.mp h
    exact toUpper_lower_ne hb (by decide) h2.symm

theorem family_upper_fixed {a b : Char} :
    [a.toUpper, b.toUpper].map Char.toUpper = [a.toUpper, b.toUpper] := by
  simp [toUpper_toUpper]

theorem norm_idem_case1 {a b d : Char} (ha : a.isLower = true) (hb : b.isLower = true)
    (hd : d.isDigit = true) :
    ∃ c, normalizeTok [a, b, '-', d] = some c ∧ normalizeTok c = some c := by
  obtain ⟨hn1, hn2, hn3⟩ := pair_facts (show ('0').isDigit = true from by decide) hd
  have hd1 : ('-') ∉ [d] := by
    intro hm
    exact digit_ne hd (Or.inl (by decide)) (List.mem_singleton.mp hm).symm
  have hd2 : ('.') ∉ [d] := by
    intro hm
    exact digit_ne hd (Or.inl (by decide)) (List.mem_singleton.mp hm).symm
  refine ⟨[a.toUpper, b.toUpper] ++ '-' :: ['0', d], ?_, ?_⟩
  · have hmap : [a, b, '-', d].map Char.toUpper
        = [a.toUpper, b.toUpper] ++ '-' :: [d] := by
      simp [toUpper_digit hd, show ('-').toUpper = '-' from by decide]
    simp only [normalizeTok, hmap]
    rw [splitOnChar_append _ _ (family_not_hyphen ha hb), splitOnChar_no_sep hd1]
    simp only [normalizeCore]
    rw [if_neg hd2]
    simp [zfill2]
  · exact normalizeTok_fixed (family_not_hyphen ha hb) hn1 hn2 (by simp)
      family_upper_fixed hn3

theorem norm_idem_case2 {a b d e : Char} (ha : a.isLower = true) (hb : b.isLower = true)
    (hd : d.isDigit = true) (he : e.isDigit = true) :
    ∃ c, normalizeTok [a, b, '-', d, e] = some c ∧ normalizeTok c = some c := by
  obtain ⟨hn1, hn2, hn3⟩ := pair_facts hd he
  refine ⟨[a.toUpper, b.toUpper] ++ '-' :: [d, e], ?_, ?_⟩
  · have hmap : [a, b, '-', d, e].map Char.toUpper
        = [a.toUpper, b.toUpper] ++ '-' :: [d, e] := by
      simp [toUpper_digit hd, toUpper_digit he, show ('-').toUpper = '-' from by decide]
    simp only [normalizeTok, hmap]
    rw [splitOnChar_append _ _ (family_not_hyphen ha hb), splitOnChar_no_sep hn1]
    simp only [normalizeCore]
    rw [if_neg hn2]
    simp [zfill2]
  · exact normalizeTok_fixed (family_not_hyphen ha hb) hn1 hn2 (by simp)
      family_upper_fixed hn3

theorem norm_idem_case3 {a b d : Char} {es : List Char} (ha : a.isLower = true)
    (hb : b.isLower = true) (hd : d.isDigit = true)
    (hdig : es.all Char.isDigit = true) :
    ∃ c, normalizeTok (a :: b :: '-' :: d :: '.' :: es) = some c ∧
      normalizeTok c = some c := by
  obtain ⟨hn1, hn2, hn3⟩ :=
    enh_list_facts (show ('0').isDigit = true from by decide) hd hdig
  have hd1 : d ≠ '-' := digit_ne hd (Or.inl (by decide))
  have hd2 : d ≠ '.' := digit_ne hd (Or.inl (by decide))
  have hesh : ('-') ∉ es := not_mem_of_all_digits hdig (by decide)
  have hesd : ('.') ∉ es := not_mem_of_all_digits hdig (by decide)
  have hnum1 : ('-') ∉ (d :: '.' :: es) := by
    intro hm
    rcases List.mem_cons.mp hm with h | h
    · exact hd1 h.symm
    · rcases List.mem_cons.mp h with h2 | h2
      · exact absurd h2 (by decide)
      · exact hesh h2
  have hdash : ('.') ∉ [d] := by
    intro hm
    exact hd2 (List.mem_singleton.mp hm).symm
  refine ⟨[a.toUpper, b.toUpper] ++ '-' :: ( '0' :: d :: '(' :: (es ++ [')'])), ?_, ?_⟩
  · have hmap : (a :: b :: '-' :: d :: '.' :: es).map Char.toUpper
        = [a.toUpper, b.toUpper] ++ '-' :: (d :: '.' :: es) := by
      simp [toUpper_digit hd, all_digits_toUpper hdig,
        show ('-').toUpper = '-' from by decide, show ('.').toUpper = '.' from by decide]
    simp only [normalizeTok, hmap]
    rw [splitOnChar_append _ _ (family_not_hyphen ha hb), splitOnChar_no_sep hnum1]
    simp only [normalizeCore]
    rw [if_pos (by simp)]
    rw [show (d :: '.' :: es) = [d] ++ '.' :: es from rfl,
      splitOnChar_append _ _ hdash, splitOnChar_no_sep hesd]
    simp [parenForm, zfill2]
  · exact normalizeTok_fixed (family_not_hyphen ha hb) hn1 hn2 (by simp)
      family_upper_fixed hn3

theorem norm_idem_case4 {a b d e : Char} {es : List Char} (ha : a.isLower = true)
    (hb : b.isLower = true) (hd : d.isDigit = true) (he : e.isDigit = true)
    (hdig : es.all Char.isDigit = true) :
    ∃ c, normalizeTok (a :: b :: '-' :: d :: e :: '.' :: es) = some c ∧
      normalizeTok c = some c := by
  obtain ⟨hn1, hn2, hn3⟩ := enh_list_facts hd he hdig
  have hd1 : d ≠ '-' := digit_ne hd (Or.inl (by decide))
  have hd2 : d ≠ '.' := digit_ne hd (Or.inl (by decide))
  have he1 : e ≠ '-' := digit_ne he (Or.inl (by decide))
  have he2 : e ≠ '.' := digit_ne he (Or.inl (by decide))
  have hesh : ('-') ∉ es := not_mem_of_all_digits hdig (by decide)
  have hesd : ('.') ∉ es := not_mem_of_all_digits hdig (by decide)
  have hnum1 : ('-') ∉ (d :: e :: '.' :: es) := by
    intro hm
    rcases List.mem_cons.mp hm with h | h
    · exact hd1 h.symm
    · rcases List.mem_cons.mp h with h2 | h2
      · exact he1 h2.symm
      · rcases List.mem_cons.mp h2 with h3 | h3
        · exact absurd h3 (by decide)
        · exact hesh h3
  have hdash : ('.') ∉ [d, e] := by
    intro hm
    rcases List.mem_cons.mp hm with h | h
    · exact hd2 h.symm
    · exact he2 (List.mem_singleton.mp h).symm
  refine ⟨[a.toUpper, b.toUpper] ++ '-' :: (d :: e :: '(' :: (es ++ [')'])), ?_, ?_⟩
  · have hmap : (a :: b :: '-' :: d :: e :: '.' :: es).map Char.toUpper
        = [a.toUpper, b.toUpper] ++ '-' :: (d :: e :: '.' :: es) := by
      simp [toUpper_digit hd, toUpper_digit he, all_digits_toUpper hdig,
        show ('-').toUpper = '-' from by decide, show ('.').toUpper = '.' from by decide]
    simp only [normalizeTok, hmap]
    rw [splitOnChar_append _ _ (family_not_hyphen ha hb), splitOnChar_no_sep hnum1]
    simp only [normalizeCore]
    rw [if_pos (by simp)]
    rw [show (d :: e :: '.' :: es) = [d, e] ++ '.' :: es from rfl,
      splitOnChar_append _ _ hdash, splitOnChar_no_sep hesd]
    simp [parenForm, zfill2]
  · exact normalizeTok_fixed (family_not_hyphen ha hb) hn1 hn2 (by simp)
      family_upper_fixed hn3

/-- C9: normalization is idempotent on every raw identifier matched by the
extraction pattern: normalize r succeeds and its output is itself a fixed
point of normalize, so normalize(normalize(r)) = normalize(r), and an
already-canonical output string is left unchanged. -/
theorem ksi_normalize_idem (r : List Char) (h : isValidRawTok r = true) :
    ∃ c, normalizeTok r = some c ∧ normalizeTok c = some c := by
  rcases r with _ | ⟨a, r⟩
  · simp [isValidRawTok] at h
  rcases r with _ | ⟨b, r⟩
  · simp [isValidRawTok] at h
  rcases r with _ | ⟨h3, rest⟩
  · simp [isValidRawTok] at h
  simp only [isValidRawTok, Bool.and_eq_true, decide_eq_true_eq] at h
  obtain ⟨⟨⟨ha, hb⟩, h3eq⟩, hnum⟩ := h
  subst h3eq
  rcases rest with _ | ⟨d, rest2⟩
  · simp [isValidNumPart] at hnum
  simp only [isValidNumPart, Bool.and_eq_true, Bool.or_eq_true] at hnum
  obtain ⟨hd, henh | hsec⟩ := hnum
  · rcases rest2 with _ | ⟨p, es⟩
    · exact norm_idem_case1 ha hb hd
    · simp only [isEnhPart, Bool.and_eq_true, decide_eq_true_eq] at henh
      obtain ⟨⟨hp, _⟩, hdig⟩ := henh
      subst hp
      exact norm_idem_case3 ha hb hd hdig
  · rcases rest2 with _ | ⟨e, rest3⟩
    · simp [isSecondDigitPart] at hsec
    · simp only [isSecondDigitPart, Bool.and_eq_true] at hsec
      obtain ⟨he, henh⟩ := hsec
      rcases rest3 with _ | ⟨p, es⟩
      · exact norm_idem_case2 ha hb hd he
      · simp only [isEnhPart, Bool.and_eq_true, decide_eq_true_eq] at henh
        obtain ⟨⟨hp, _⟩, hdig⟩ := henh
        subst hp
        exact norm_idem_case4 ha hb hd he hdig

/-- C9 witness: idempotence evaluated at the concrete raw token at-2.2. -/
theorem ksi_normalize_idem_witness :
    ∃ c, normalizeTok ( "at-2.2".toList) = some c ∧ normalizeTok c = some c :=
  ksi_normalize_idem ( "at-2.2".toList) (by decide)

/- ------------------------------------------------------------------ -/
/- Further character-order facts (used by the search ordering)         -/
/- ------------------------------------------------------------------ -/

theorem char_eq_of_toNat_eq {c d : Char} (h : c.toNat = d.toNat) : c = d := by
  apply Char.ext
  apply UInt32.toNat.inj
  exact h

theorem char_lt_iff_toNat {c d : Char} : c < d ↔ c.toNat < d.toNat :=
  ⟨fun h => h, fun h => h⟩

theorem listLe_total (a b : List Char) : listLe a b = true ∨ listLe b a = true := by
  induction a generalizing b with
  | nil => left; rfl
  | cons x xs ih =>
    cases b with
    | nil => right; rfl
    | cons y ys =>
      by_cases hxy : x = y
      · subst hxy
        simp only [listLe, if_pos rfl]
        exact ih ys
      · rcases Nat.lt_trichotomy x.toNat y.toNat with h | h | h
        · left
          simp only [listLe, if_neg hxy]
          exact decide_eq_true (char_lt_iff_toNat.mpr h)
        · exact absurd (char_eq_of_toNat_eq h) hxy
        · right
          simp only [listLe, if_neg (Ne.symm hxy)]
          exact decide_eq_true (char_lt_iff_toNat.mpr h)

theorem listLe_trans {a b c : List Char} (h1 : listLe a b = true)
    (h2 : listLe b c = true) : listLe a c = true := by
  induction a generalizing b c with
  | nil => rfl
  | cons x xs ih =>
    cases b with
    | nil => simp [listLe] at h1
    | cons y ys =>
      cases c with
      | nil => simp [listLe] at h2
      | cons z zs =>
        by_cases hxy : x = y <;> by_cases hyz : y = z
        · subst hxy; subst hyz
          simp only [listLe, if_pos rfl] at h1 h2 ⊢
          exact ih h1 h2
        · subst hxy
          simp only [listLe, if_pos rfl] at h1
          simp only [listLe, if_neg hyz] at h2 ⊢
          exact h2
        · subst hyz
          simp only [listLe, if_neg hxy] at h1 ⊢
          exact h1
        · simp only [listLe, if_neg hxy] at h1
          simp only [listLe, if_neg hyz] at h2
          have hx : x.toNat < y.toNat := char_lt_iff_toNat.mp (of_decide_eq_true h1)
          have hy : y.toNat < z.toNat := char_lt_iff_toNat.mp (of_decide_eq_true h2)
          have hxz : x ≠ z := char_ne_of_toNat_ne (by omega)
          simp only [listLe, if_neg hxz]
          exact decide_eq_true (char_lt_iff_toNat.mpr (by omega))

instance : IsTrans SearchRes resRel :=
  ⟨fun x y z hxy hyz => by
    rcases hxy with h1 | ⟨h1, h1b⟩ <;> rcases hyz with h2 | ⟨h2, h2b⟩
    · exact Or.inl (by omega)
    · exact Or.inl (by omega)
    · exact Or.inl (by omega)
    · exact Or.inr ⟨by omega, listLe_trans h1b h2b⟩⟩

instance : IsTotal SearchRes resRel :=
  ⟨fun x y => by
    rcases Nat.lt_trichotomy x.2.2 y.2.2 with h | h | h
    · exact Or.inr (Or.inl h)
    · rcases listLe_total x.1 y.1 with hl | hl
      · exact Or.inl (Or.inr ⟨h, hl⟩)
      · exact Or.inr (Or.inr ⟨h.symm, hl⟩)
    · exact Or.inl (Or.inl h)⟩

/- ------------------------------------------------------------------ -/
/- Catalog key-set lemmas (claims C4 and C5)                           -/
/- ------------------------------------------------------------------ -/

theorem lookupC_append_single {α : Type} (cat : List (List Char × α)) (k : List Char)
    (v : α) (i : List Char) :
    ((lookupC (cat ++ [(k, v)]) i).isSome = true) ↔
      ((lookupC cat i).isSome = true ∨ i = k) := by
  induction cat with
  | nil =>
    simp only [List.nil_append, lookupC]
    by_cases h : i = k
    · simp [h]
    · simp [h, lookupC]
  | cons p t ih =>
    obtain ⟨k1, v1⟩ := p
    by_cases h : i = k1
    · simp [lookupC, h]
    · simp only [List.cons_append, lookupC, if_neg h]
      exact ih

theorem lookupC_updateC {α : Type} (cat : List (List Char × α)) (key : List Char)
    (f : α → α) (i : List Char) :
    (lookupC (updateC cat key f) i).isSome = (lookupC cat i).isSome := by
  induction cat with
  | nil => rfl
  | cons p t ih =>
    obtain ⟨k1, v1⟩ := p
    show (lookupC ((if k1 = key then (k1, f v1) else (k1, v1)) :: updateC t key f) i).isSome
        = (lookupC ((k1, v1) :: t) i).isSome
    by_cases hk : k1 = key
    · rw [if_pos hk]
      by_cases hi : i = k1
      · simp [lookupC, hi]
      · simp [lookupC, hi, ih]
    · rw [if_neg hk]
      by_cases hi : i = k1
      · simp [lookupC, hi]
      · simp [lookupC, hi, ih]

theorem rowStep_mem (cat : List (List Char × CatalogEntry)) (r : SRow) (i : List Char) :
    ((lookupC (rowStep cat r) i).isSome = true) ↔
      ((lookupC cat i).isSome = true ∨ validRowId r = some i) := by
  unfold rowStep validRowId
  by_cases hs : isBaselineSheet r.sheet = true
  · rw [if_pos hs]
    by_cases hc : pyStrip r.sortId = []
    · rw [if_pos hc]
      simp [hs, hc]
    · rw [if_neg hc]
      rw [lookupC_updateC]
      by_cases hl : (lookupC cat (pyStrip r.sortId)).isSome = true
      · rw [if_pos hl]
        simp only [hs, hc, ne_eq, not_false_eq_true, and_self, if_pos, true_and,
          Option.some.injEq]
        constructor
        · exact Or.inl
        · rintro (h | h)
          · exact h
          · rw [← h]
            exact hl
      · rw [if_neg hl]
        rw [lookupC_append_single]
        simp only [hs, hc, ne_eq, not_false_eq_true, and_self, if_pos, true_and,
          Option.some.injEq]
        constructor
        · rintro (h | h)
          · exact Or.inl h
          · exact Or.inr h.symm
        · rintro (h | h)
          · exact Or.inl h
          · exact Or.inr h.symm
  · rw [if_neg hs]
    simp [hs]

theorem build_mem (rows : List SRow) :
    ∀ (cat : List (List Char × CatalogEntry)) (i : List Char),
      ((lookupC (rows.foldl rowStep cat) i).isSome = true) ↔
        ((lookupC cat i).isSome = true ∨ i ∈ rows.filterMap validRowId) := by
  induction rows with
  | nil => intro cat i; simp
  | cons r rows ih =>
    intro cat i
    rw [List.foldl_cons, ih, rowStep_mem]
    cases hv : validRowId r with
    | none => simp [List.filterMap_cons, hv]
    | some v =>
      simp only [List.filterMap_cons, hv, List.mem_cons, Option.some.injEq]
      constructor
      · rintro ((h | h) | h)
        · exact Or.inl h
        · exact Or.inr (Or.inl h.symm)
        · exact Or.inr (Or.inr h)
      · rintro (h | h | h)
        · exact Or.inl (Or.inl h)
        · exact Or.inl (Or.inr h.symm)
        · exact Or.inr h

/-- C4 counterexample: building the catalog from two rows for the same id in
the two possible orders yields different entries (the first-processed row
freezes name, family and description, and the baselines list records the
processing order), so catalog construction is not order-independent. -/
theorem build_order_dependent_cex :
    lookupC (buildFromRows [rowLowA, rowModB]) ( "AC-01".toList)
      ≠ lookupC (buildFromRows [rowModB, rowLowA]) ( "AC-01".toList) := by
  decide

/-- C4 (amended): catalog construction is order-independent at the level of
the key set — an id is present in the catalog built from any permutation of
the rows exactly when it is present in the original build — but the entry
contents (name, family, description, baselines order) depend on the
processing order whenever duplicate ids carry different fields. -/
theorem build_key_set_perm_invariant (rows1 rows2 : List SRow)
    (hp : rows1.Perm rows2) (i : List Char) :
    (lookupC (buildFromRows rows1) i).isSome
      = (lookupC (buildFromRows rows2) i).isSome := by
  have h1 := build_mem rows1 [] i
  have h2 := build_mem rows2 [] i
  simp only [lookupC, Option.isSome_none, Bool.false_eq_true, false_or] at h1 h2
  have hm : i ∈ rows1.filterMap validRowId ↔ i ∈ rows2.filterMap validRowId :=
    (hp.filterMap validRowId).mem_iff
  rw [Bool.eq_iff_iff]
  unfold buildFromRows
  rw [h1, h2]
  exact hm

/-- C4 witness: the key-set invariance applied to a concrete two-row swap. -/
theorem build_key_set_perm_invariant_witness :
    (lookupC (buildFromRows [rowLowA, rowModB]) ( "AC-01".toList)).isSome
      = (lookupC (buildFromRows [rowModB, rowLowA]) ( "AC-01".toList)).isSome :=
  build_key_set_perm_invariant _ _ (List.Perm.swap rowModB rowLowA []) _

theorem ksiStep_mem (cat : List (List Char × CatalogEntry)) (t : List Char)
    (i : List Char) :
    (lookupC (ksiStep cat t) i).isSome = (lookupC cat i).isSome := by
  cases hnt : normalizeTok t with
  | none => simp [ksiStep, hnt]
  | some n =>
    by_cases h : (lookupC cat n).isSome = true
    · simp [ksiStep, hnt, h, lookupC_updateC]
    · simp [ksiStep, hnt, h]

/-- C5 (amended): indicator tokens never create catalog entries — the KSI
phase of load_all_controls only sets the in_ksi flag on entries already
present, so the key set after the indicator pass equals the key set before
it, and an id appearing only in the indicator document is simply dropped. -/
theorem applyKsi_preserves_keys (cat : List (List Char × CatalogEntry))
    (toks : List (List Char)) (i : List Char) :
    (lookupC (applyKsi cat toks) i).isSome = (lookupC cat i).isSome := by
  induction toks generalizing cat with
  | nil => rfl
  | cons t toks ih =>
    rw [applyKsi, List.foldl_cons,
      show toks.foldl ksiStep (ksiStep cat t) = applyKsi (ksiStep cat t) toks from rfl,
      ih, ksiStep_mem]

/-- C5 counterexample: with no tabular rows, the indicator text
"implements ac-1 and ksi-iam-01" yields no catalog entry for AC-01 — the
claim says the builder must create a bare AC-01 entry with the indicator
flag set, but the code drops indicator-only ids. -/
theorem indicator_only_absent_cex :
    lookupC (load_all_controls [] ( "implements ac-1 and ksi-iam-01".toList))
      ( "AC-01".toList) = none := by
  decide

/- ------------------------------------------------------------------ -/
/- Search with the empty query (claim C6)                              -/
/- ------------------------------------------------------------------ -/

theorem nil_isPrefixOf (l : List Char) : ([] : List Char).isPrefixOf l = true := by
  cases l <;> rfl

theorem fieldLoop_id_empty (cid : List Char) (e : CatalogEntry) (fz : Bool)
    (pr : List Char → List Char → Nat) :
    fieldLoop [] cid e fz pr ["id"] 0 false = (100, true) := by
  unfold fieldLoop
  rw [if_pos ⟨rfl, nil_isPrefixOf _⟩]

theorem searchFold_id_empty (cat : List (List Char × CatalogEntry)) (fz : Bool)
    (pr : List Char → List Char → Nat) :
    ∀ acc, cat.foldl (fun acc p =>
        let sm := fieldLoop [] p.1 p.2 fz pr ["id"] 0 false
        if sm.2 then acc ++ [(p.1, p.2, sm.1)] else acc) acc
      = acc ++ cat.map (fun p => (p.1, p.2, 100)) := by
  induction cat with
  | nil => intro acc; simp
  | cons p t ih =>
    intro acc
    rw [List.foldl_cons, ih]
    simp [fieldLoop_id_empty]

/-- C6 counterexample: search with the empty-string query over a one-entry
catalog returns that entry (the empty string is a prefix of every id), not
the empty result sequence the claim requires. -/
theorem empty_query_not_empty_cex :
    search_controls [] [( "AC-01".toList, entryAC01)] ["id"] false pr0 ≠ [] := by
  decide

/-- C6 (amended): searching with the empty query over the id field returns
the entire catalog, every result carrying score 100 — the full catalog, not
the empty sequence; suggest with an empty partial does return the empty
list. -/
theorem empty_query_full_catalog (cat : List (List Char × CatalogEntry)) (fz : Bool)
    (pr : List Char → List Char → Nat) (keys : List (List Char)) (lim : Nat)
    (scorer : List Char → List Char → Nat) :
    (search_controls [] cat ["id"] fz pr).length = cat.length ∧
    (∀ res ∈ search_controls [] cat ["id"] fz pr, res.2.2 = 100) ∧
    get_control_suggestions [] keys lim scorer = [] := by
  have hsearch : search_controls [] cat ["id"] fz pr
      = List.insertionSort resRel (cat.map (fun p => (p.1, p.2, 100))) := by
    simp only [search_controls]
    rw [show lowerList ([] : List Char) = [] from rfl, searchFold_id_empty]
    simp
  refine ⟨?_, ?_, by simp [get_control_suggestions]⟩
  · rw [hsearch, (List.perm_insertionSort resRel _).length_eq, List.length_map]
  · intro res hres
    rw [hsearch] at hres
    have hm := (List.perm_insertionSort resRel _).mem_iff.mp hres
    obtain ⟨p, _, rfl⟩ := List.mem_map.mp hm
    rfl

/- ------------------------------------------------------------------ -/
/- Search ordering (claim C7) and exact-mode scoring (claim C10)       -/
/- ------------------------------------------------------------------ -/

/-- C7 counterexample: with fields = {id} the query C-0 includes the entry
AC-01 with score 80 although AC-01 does not start with the (upper-cased)
query — inclusion is not equivalent to an id-prefix match, because a failed
prefix test falls through to case-insensitive substring containment in the
id field value. -/
theorem search_substring_inclusion_cex :
    search_controls ( "C-0".toList) [( "AC-01".toList, entryAC01)] ["id"] false pr0
      = [( "AC-01".toList, entryAC01, 80)] ∧
    ( "C-0".toList).isPrefixOf ( "AC-01".toList) = false := by
  decide

/-- C7 (amended): the result sequence of every search is sorted by
descending score with ties broken by ascending id, and the concrete example
holds: querying AC over {AC-01, AC-02, AB-05} with fields = {id} returns
exactly [AC-01, AC-02] in that order, each with score 100, AB-05 excluded.
(An id-prefix match scores 100, but an entry whose id merely contains the
query as an infix is also included, with score 80 in exact mode.) -/
theorem search_order_spec :
    (∀ (q : List Char) (cat : List (List Char × CatalogEntry)) (fields : List String)
      (fz : Bool) (pr : List Char → List Char → Nat),
      List.Sorted resRel (search_controls q cat fields fz pr)) ∧
    search_controls ( "AC".toList) catEx ["id"] false pr0
      = [( "AC-01".toList, entryAC01, 100), ( "AC-02".toList, entryAC02, 100)] := by
  constructor
  · intro q cat fields fz pr
    exact List.sorted_insertionSort resRel _
  · decide

/-- C10: in exact mode the reported score is the score of the last matching
field in iteration order, not the maximum: an entry whose name and
description both contain the query scores 80 with fields [name,
description] but 90 with fields [description, name]. -/
theorem exact_mode_last_field_wins :
    search_controls ( "log".toList) [( "AU-06".toList, entryAudit)]
        ["name", "description"] false pr0
      = [( "AU-06".toList, entryAudit, 80)] ∧
    search_controls ( "log".toList) [( "AU-06".toList, entryAudit)]
        ["description", "name"] false pr0
      = [( "AU-06".toList, entryAudit, 90)] := by
  decide

/- ------------------------------------------------------------------ -/
/- Autocomplete suggestions (claim C8)                                 -/
/- ------------------------------------------------------------------ -/

theorem suggFold_spec (fm : List (List Char × Nat)) :
    ∀ acc : List (List Char),
      ∃ extra,
        fm.foldl (fun acc m => if m.2 > 70 ∧ m.1 ∉ acc then acc ++ [m.1] else acc) acc
            = acc ++ extra ∧
          (∀ x ∈ extra, (∃ p ∈ fm, p.1 = x ∧ p.2 > 70) ∧ x ∉ acc) ∧
          (acc.Nodup → (acc ++ extra).Nodup) := by
  induction fm with
  | nil => exact fun acc => ⟨[], by simp, by simp, by simp⟩
  | cons m fm ih =>
    intro acc
    rw [List.foldl_cons]
    by_cases hc : m.2 > 70 ∧ m.1 ∉ acc
    · rw [if_pos hc]
      obtain ⟨extra, heq, hprop, hnd⟩ := ih (acc ++ [m.1])
      refine ⟨m.1 :: extra, ?_, ?_, ?_⟩
      · rw [heq]; simp
      · intro x hx
        rcases List.mem_cons.mp hx with rfl | hx
        · exact ⟨⟨m, List.mem_cons_self m fm, rfl, hc.1⟩, hc.2⟩
        · obtain ⟨⟨p, hp, hpx, hps⟩, hnacc⟩ := hprop x hx
          exact ⟨⟨p, List.mem_cons_of_mem m hp, hpx, hps⟩,
            fun hm2 => hnacc (List.mem_append_left _ hm2)⟩
      · intro hacc
        have hsing : (acc ++ [m.1]).Nodup := by
          rw [List.nodup_append]
          exact ⟨hacc, List.nodup_singleton _, by
            intro a ha hb
            rw [List.mem_singleton] at hb
            exact hc.2 (hb ▸ ha)⟩
        have h2 := hnd hsing
        simpa [List.append_assoc] using h2
    · rw [if_neg hc]
      obtain ⟨extra, heq, hprop, hnd⟩ := ih acc
      refine ⟨extra, heq, ?_, hnd⟩
      intro x hx
      obtain ⟨⟨p, hp, hpx, hps⟩, hnacc⟩ := hprop x hx
      exact ⟨⟨p, List.mem_cons_of_mem m hp, hpx, hps⟩, hnacc⟩

theorem processExtract_mem {q : List Char} {choices : List (List Char)}
    {scorer : List Char → List Char → Nat} {lim : Nat} {p : List Char × Nat}
    (h : p ∈ processExtract q choices scorer lim) :
    p.1 ∈ choices ∧ p.2 = scorer q p.1 := by
  unfold processExtract at h
  have h1 := List.take_subset _ _ h
  have h2 := (List.perm_insertionSort scorePairRel _).subset h1
  obtain ⟨c, hc, hpc⟩ := List.mem_map.mp h2
  rw [← hpc]
  exact ⟨hc, rfl⟩

/-- C8 counterexample: with catalog iteration order [AC-02, AC-01], query AC
and limit 2, suggest returns the prefix matches in iteration order
[AC-02, AC-01] — not in ascending canonical-id order as the claim states
(the fuzzy stage is not even reached, so the result is scorer-independent). -/
theorem suggestions_order_cex :
    get_control_suggestions ( "AC".toList) [ "AC-02".toList, "AC-01".toList] 2 pr0
      = [ "AC-02".toList, "AC-01".toList] ∧
    ([ "AC-02".toList, "AC-01".toList] : List (List Char))
      ≠ [ "AC-01".toList, "AC-02".toList] := by
  decide

/-- C8 (amended): for a non-empty partial query and a duplicate-free key
set, suggest returns first the keys having the upper-cased query as a
prefix, in catalog iteration order (not ascending id order), then fills the
remaining slots with fuzzy matches scoring strictly above 70 that are not
prefix matches, with no key repeated, the whole sequence capped at the
limit. -/
theorem suggestions_spec (query : List Char) (keys : List (List Char)) (lim : Nat)
    (scorer : List Char → List Char → Nat) (hq : query ≠ []) (hnd : keys.Nodup) :
    (get_control_suggestions query keys lim scorer).length ≤ lim ∧
    (∃ t, get_control_suggestions query keys lim scorer
        = (keys.filter (fun k => (upperList query).isPrefixOf k)).take lim ++ t) ∧
    (get_control_suggestions query keys lim scorer).Nodup ∧
    (∀ x ∈ (get_control_suggestions query keys lim scorer).drop
        (keys.filter (fun k => (upperList query).isPrefixOf k)).length,
      x ∈ keys ∧ scorer (upperList query) x > 70 ∧
        (upperList query).isPrefixOf x = false) := by
  simp only [get_control_suggestions]
  rw [if_neg hq]
  set q := upperList query with hqdef
  set pre := keys.filter (fun k => q.isPrefixOf k) with hpredef
  have hpre_nd : pre.Nodup := hnd.filter _
  by_cases hlim : pre.length < lim
  · rw [if_pos hlim]
    obtain ⟨extra, heq, hprop, hndf⟩ :=
      suggFold_spec (processExtract q keys scorer (lim - pre.length)) pre
    rw [heq]
    refine ⟨List.length_take_le _ _,
      ⟨extra.take (lim - pre.length), List.take_append_eq_append_take⟩,
      List.Nodup.sublist (List.take_sublist _ _) (hndf hpre_nd), ?_⟩
    intro x hx
    rw [List.take_append_eq_append_take,
      List.take_of_length_le (Nat.le_of_lt hlim), List.drop_left] at hx
    have hx2 : x ∈ extra := List.take_subset _ _ hx
    obtain ⟨⟨p, hp, hpx, hps⟩, hnpre⟩ := hprop x hx2
    obtain ⟨hpc, hpsc⟩ := processExtract_mem hp
    subst hpx
    refine ⟨hpc, by rw [← hpsc]; exact hps, ?_⟩
    cases hpf : q.isPrefixOf p.1
    · rfl
    · exact absurd (List.mem_filter.mpr ⟨hpc, hpf⟩) hnpre
  · rw [if_neg hlim]
    push_neg at hlim
    refine ⟨List.length_take_le _ _, ⟨[], by simp⟩,
      List.Nodup.sublist (List.take_sublist _ _) hpre_nd, ?_⟩
    intro x hx
    rw [List.drop_eq_nil_of_le
      (Nat.le_trans (List.length_take_le _ _) hlim)] at hx
    exact absurd hx (List.not_mem_nil x)

/-- C8 witness: the suggestion properties evaluated at query A over the
one-key catalog [AC-01] with limit 5 and the constant scorer. -/
theorem suggestions_spec_witness :
    (get_control_suggestions ( "A".toList) [ "AC-01".toList] 5 pr0).length ≤ 5 ∧
    (∃ t, get_control_suggestions ( "A".toList) [ "AC-01".toList] 5 pr0
        = (([ "AC-01".toList] : List (List Char)).filter
            (fun k => (upperList ( "A".toList)).isPrefixOf k)).take 5 ++ t) ∧
    (get_control_suggestions ( "A".toList) [ "AC-01".toList] 5 pr0).Nodup ∧
    (∀ x ∈ (get_control_suggestions ( "A".toList) [ "AC-01".toList] 5 pr0).drop
        (([ "AC-01".toList] : List (List Char)).filter
            (fun k => (upperList ( "A".toList)).isPrefixOf k)).length,
      x ∈ [ "AC-01".toList] ∧ pr0 (upperList ( "A".toList)) x > 70 ∧
        (upperList ( "A".toList)).isPrefixOf x = false) :=
  suggestions_spec ( "A".toList) [ "AC-01".toList] 5 pr0 (by decide) (by decide)

/- ------------------------------------------------------------------ -/
/- Normalization join-key mismatch (claim C1)                          -/
/- ------------------------------------------------------------------ -/

/-- C1: the two sides of the crosswalk normalize the same logical control
to different join keys.  The KSI dot-form token at-2.2 normalizes to
AT-02(2) (enhancement unpadded), while the baseline paren-form cell
AT-02 (02) is only stripped of whitespace, yielding AT-02(02) with the
enhancement still zero-padded — the strings differ, so the crosswalk never
matches enhanced controls, contradicting the normalization-equivalence
requirement the code's own comment (normalize KSI controls to match
baseline format) was meant to achieve. -/
theorem enhancement_join_mismatch :
    normalizeTok ( "at-2.2".toList) = some ( "AT-02(2)".toList) ∧
    cleanBaselineId ( "AT-02 (02)".toList) = "AT-02(02)".toList ∧
    normalizeTok ( "at-2.2".toList) ≠ some (cleanBaselineId ( "AT-02 (02)".toList)) := by
  decide

/- ------------------------------------------------------------------ -/
/- Family tally double counting (claim C2)                             -/
/- ------------------------------------------------------------------ -/

/-- C2: the tab4 family analysis iterates over the concatenation of the two
control lists, so an id present in both lists is tallied twice in its
family's both-counter: with L = R = [AC-01] the family AC reports
both = 2 and total = 2, while the union of the two lists has exactly one
element — the tallies do not sum to the size of the union. -/
theorem family_tally_double_count :
    familiesAnalysis [ "AC-01".toList] [ "AC-01".toList]
      = [( "AC".toList, ⟨0, 0, 2⟩)] ∧
    ((([ "AC-01".toList] : List (List Char)) ++ [ "AC-01".toList]).dedup).length = 1 := by
  decide

/- ------------------------------------------------------------------ -/
/- Extraction case sensitivity (claim C3)                              -/
/- ------------------------------------------------------------------ -/

/-- C3 counterexample: on the fixture text containing exactly the tokens
AC-1, ac-2.3 and KSI-IAM-05, extraction yields 2 distinct tokens, not 3:
the control pattern is lower-case only, so the upper-case AC-1 is never
matched. -/
theorem extraction_cex :
    ((findControls fixtureText).dedup ++ (findKsis fixtureText).dedup).length ≠ 3 ∧
    ( "AC-1".toList) ∉ findControls fixtureText := by
  decide

/-- C3 (amended): extraction is case-sensitive, not case-insensitive: the
control-shape pattern matches only lower-case tokens and the indicator
pattern only the upper-case KSI tags.  On the fixture the control pattern
captures exactly ac-2.3 and the indicator pattern exactly KSI-IAM-05 (two
distinct tokens); the extractor output is (normalized controls, tags) =
([AC-02(3)], [KSI-IAM-05]); and the indicator tag is never passed to
normalize, since it is not among the control-pattern matches. -/
theorem extraction_fixture_spec :
    findControls fixtureText = [ "ac-2.3".toList] ∧
    findKsis fixtureText = [ "KSI-IAM-05".toList] ∧
    extract_ksi_controls fixtureText
      = ([ "AC-02(3)".toList], [ "KSI-IAM-05".toList]) ∧
    ( "KSI-IAM-05".toList) ∉ findControls fixtureText := by
  decide
